import Mathlib

/-!
Verification development for the `KeyManager` record store
(`src/code/apikeys/KeyManager.py`).

The Python code is shallowly embedded:
* Python dict values are `Val` (strings, booleans, and references to
  mutable nested objects, modelled by an address into an object heap);
* a record (`dict`) is an insertion-ordered association list
  `Rec = List (String × Val)` with Python dict semantics (`alGet`,
  `alSet`, `alDel`);
* record instances are addressed by their index in `Store.heap`, so that
  the two indices `byUser` / `byDomain` hold the *same instances*
  exactly as in Python (both store the heap address);
* Python exceptions (`KeyError`, `Exception(msg)`, the I/O failures of
  `open` and `json.load`) are the error cases of `Except PyErr`;
* the backing JSON file is a `FileContent` value carried in the store;
  timestamps (`str(datetime.datetime.now()).partition('.')[0]`) are an
  explicit `now : String` parameter of each mutating operation.
-/

/-- A Python value stored in a key record: a string, a boolean, or a
reference to a mutable nested object (address into `Store.objHeap`). -/
inductive Val where
  | vStr : String → Val
  | vBool : Bool → Val
  | vObj : Nat → Val
deriving DecidableEq, Repr

/-- A Python exception, as raised by the embedded code. -/
inductive PyErr where
  | keyError : String → PyErr
  | exc : String → PyErr
  | fileMissing : PyErr
  | fileMalformed : PyErr
  | attrError : String → PyErr
deriving DecidableEq, Repr

/-- A key record: an insertion-ordered dictionary from field names to values. -/
abbrev Rec := List (String × Val)

/-- Python dict read: value of the first matching key, if any. -/
def alGet {κ α : Type} [DecidableEq κ] : List (κ × α) → κ → Option α
  | [], _ => none
  | (k, v) :: rest, key => if k = key then some v else alGet rest key

/-- Python dict write `d[k] = v`: replace in place when the key exists
(keeping its position), otherwise append at the end. -/
def alSet {κ α : Type} [DecidableEq κ] : List (κ × α) → κ → α → List (κ × α)
  | [], key, v => [(key, v)]
  | (k, w) :: rest, key, v =>
    if k = key then (k, v) :: rest else (k, w) :: alSet rest key v

/-- Python dict delete `del d[k]`: remove the (unique) entry for the key. -/
def alDel {κ α : Type} [DecidableEq κ] : List (κ × α) → κ → List (κ × α)
  | [], _ => []
  | (k, w) :: rest, key => if k = key then rest else (k, w) :: alDel rest key

/-- Python truthiness of a stored value (`if not v: ...`):
an empty string and `False` are falsy; any object reference is truthy. -/
def pyTruthy : Val → Bool
  | .vStr s => s ≠ ""
  | .vBool b => b
  | .vObj _ => true

/-- Python subscript `r[k]` on a record: raises `KeyError(k)` when absent. -/
def pyGet (r : Rec) (k : String) : Except PyErr Val :=
  match alGet r k with
  | some v => .ok v
  | none => .error (.keyError k)

/-! ### Domain regularization (`__regularize_domain__`, lines 601-629)

Python string operations are embedded over `List Char`:
`str.lower` (ASCII case mapping, as in Lean core), `str.partition`,
`str.split`, and the leading-slash stripping loop. -/

/-- ASCII lower-casing of one character (`str.lower` on the alphabet the
program manipulates). -/
def pyToLower (c : Char) : Char :=
  if 65 ≤ c.toNat ∧ c.toNat ≤ 90 then Char.ofNat (c.toNat + 32) else c

/-- Does the second list start with the first one? -/
def seqStarts : List Char → List Char → Bool
  | [], _ => true
  | _ :: _, [] => false
  | a :: as, b :: bs => a == b && seqStarts as bs

/-- Python `s.partition(sep)`: split around the first occurrence of
`sep`, returning `(before, sep, after)`; `(s, "", "")` when absent. -/
def pyPartitionList (sep : List Char) : List Char → List Char × List Char × List Char
  | [] => ([], [], [])
  | c :: rest =>
    if seqStarts sep (c :: rest) then
      ([], sep, (c :: rest).drop sep.length)
    else
      let p := pyPartitionList sep rest
      (c :: p.1, p.2.1, p.2.2)

/-- Fuelled worker for Python `s.split(sep)` (the fuel is only a
termination device; `s.length + 1` always suffices). -/
def pySplitGo (sep : List Char) : Nat → List Char → List (List Char)
  | 0, s => [s]
  | n + 1, s =>
    match pyPartitionList sep s with
    | (a, [], _) => [a]
    | (a, _ :: _, r) => a :: pySplitGo sep n r

/-- Python `s.split(sep)` for a non-empty separator. -/
def pySplitList (sep : List Char) (s : List Char) : List (List Char) :=
  pySplitGo sep (s.length + 1) s

/-- The character pipeline of `__regularize_domain__` after the
lower-casing (lines 616-628): strip a `scheme://` head, strip leading
`/`, keep the part before the first `/`, then before the first `:`. -/
def regCore (l : List Char) : List Char :=
  let parts := pyPartitionList [':', '/', '/'] l
  let d1 := if parts.2.2 = [] then parts.1 else parts.2.2
  let d2 := d1.dropWhile (fun c => c == '/')
  let d3 := (pySplitList ['/'] d2).headD []
  (pyPartitionList [':'] d3).1

/-- `__regularize_domain__` (lines 601-629): lower-case, strip a
`scheme://` head, strip leading `/`, keep the part before the first `/`,
then the part before the first `:`. -/
def regularizeDomain (domain : String) : String :=
  if domain = "" then ""
  else ⟨regCore (domain.data.map pyToLower)⟩

/-- `__regularize_domain__` applied to an arbitrary record value:
any falsy argument yields `""`; a truthy non-string has no `.lower`
attribute and raises. -/
def regularizeDomainV (v : Val) : Except PyErr String :=
  if ¬ pyTruthy v then .ok ""
  else
    match v with
    | .vStr s => .ok (regularizeDomain s)
    | _ => .error (.attrError "lower")

/-! ### Store state -/

/-- The backing JSON file: absent, unparsable, or a list of records. -/
inductive FileContent where
  | missing : FileContent
  | malformed : FileContent
  | ok : List Rec → FileContent
deriving DecidableEq, Repr

/-- One level of the two nested index dictionaries: Python dict keys may
be arbitrary values, so keys are `Val`; the leaves are lists of record
addresses (list of heap indices, Python lists of record references). -/
abbrev Idx := List (Val × List (Val × List Nat))

/-- The state of one `KeyManager` object: the heap of record instances,
the heap of nested mutable objects, the two indices and the dirty flag of
`__key_dict__`, the backing file, and the `status` string. -/
structure Store where
  heap : List Rec
  objHeap : List Val
  byUser : Idx
  byDomain : Idx
  dirty : Bool
  file : FileContent
  status : String
deriving DecidableEq, Repr

def KM_STATUS_OPEN : String := "open and loaded"

def KM_STATUS_CLOSED : String := "still closed"

/-- `str(ex)` for the modelled exceptions (used for `self.status`). -/
def errStr : PyErr → String
  | .keyError k => "'" ++ k ++ "'"
  | .exc m => m
  | .fileMissing => "[Errno 2] No such file or directory"
  | .fileMalformed => "Expecting value: line 1 column 1 (char 0)"
  | .attrError a => "'" ++ a ++ "'"

/-- The shared index-insertion steps of `submitRecord` (lines 156-167)
and `__read_key_file__` (lines 505-518): create the nested dictionaries
on demand, then append the record's address to the inner list. -/
def alEnsure {κ α : Type} [DecidableEq κ] (l : List (κ × α)) (k : κ) (d : α) :
    List (κ × α) :=
  if (alGet l k).isNone then alSet l k d else l

def indexInsert (idx : Idx) (k1 k2 : Val) (i : Nat) : Idx :=
  let idx1 := alEnsure idx k1 []
  let inner1 := alEnsure ((alGet idx1 k1).getD []) k2 []
  let inner2 := alSet inner1 k2 ((alGet inner1 k2).getD [] ++ [i])
  alSet idx1 k1 inner2

/-- The record addresses stored under a pair of index keys (empty when
either level is absent). -/
def idsAt (idx : Idx) (k1 k2 : Val) : List Nat :=
  (alGet ((alGet idx k1).getD []) k2).getD []

/-- All record addresses of an index, in its nested iteration order. -/
def flattenIds (idx : Idx) : List Nat :=
  (idx.map (fun p => (p.2.map Prod.snd).flatten)).flatten

/-- The record values listed by `__write_key_file__` (lines 534-542):
the by-domain index flattened in domain-then-account order. -/
def flattenByDomain (heap : List Rec) (bd : Idx) : List Rec :=
  (flattenIds bd).map (fun i => heap.getD i [])

/-- `__write_key_file__` (lines 525-550): when dirty, overwrite the file
with the flattened by-domain record list and clear the dirty flag. -/
def writeKeyFile (s : Store) : Store :=
  if s.dirty then
    { s with file := .ok (flattenByDomain s.heap s.byDomain), dirty := false }
  else s

/-! ### Lookup (`__find_record__`, lines 421-482, and `findRecord`) -/

/-- The loop body shared by all branches of `__find_record__`: keep
every record when `all`, otherwise keep records whose `expired` field is
falsy (reading `key['expired']` can raise `KeyError`). -/
def expFilter (heap : List Rec) (all : Bool) : List Nat → Except PyErr (List Nat)
  | [] => .ok []
  | i :: rest =>
    if all then
      match expFilter heap all rest with
      | .error e => .error e
      | .ok l => .ok (i :: l)
    else
      match pyGet (heap.getD i []) "expired" with
      | .error e => .error e
      | .ok v =>
        if ¬ pyTruthy v then
          match expFilter heap all rest with
          | .error e => .error e
          | .ok l => .ok (i :: l)
        else expFilter heap all rest

/-- The trailing domain-only part of `__find_record__` (lines 469-482),
reached when no username was supplied or the username was not found:
regularize the domain, look it up in by-domain, and return the filtered
record list of the **first** account only (the `return` sits inside the
loop over accounts). -/
def findByDomain (s : Store) (domain : Val) (all : Bool) : Except PyErr (List Nat) :=
  if pyTruthy domain then
    match regularizeDomainV domain with
    | .error e => .error e
    | .ok nd =>
      match alGet s.byDomain (.vStr nd) with
      | some domainUsers =>
        match domainUsers with
        | [] => .ok []
        | (_, keyList) :: _ => expFilter s.heap all keyList
      | none => .ok []
  else .ok []

/-- `__find_record__` (lines 421-482), returning record addresses. -/
def findRecordIds (s : Store) (username domain : Val) (all : Bool) : Except PyErr (List Nat) :=
  if pyTruthy username then
    match alGet s.byUser username with
    | some userDomains =>
      if pyTruthy domain then
        match regularizeDomainV domain with
        | .error e => .error e
        | .ok nd =>
          match alGet userDomains (.vStr nd) with
          | some keyList => expFilter s.heap all keyList
          | none => .ok []
      else
        expFilter s.heap all ((userDomains.map Prod.snd).flatten)
    | none => findByDomain s domain all
  else findByDomain s domain all

/-- `findRecord` (lines 222-246): the public lookup; `r.copy()` is a
*shallow* dict copy, so each returned record is the stored record's
current association list (sharing any nested object references). -/
def findRecord (s : Store) (username domain : String) (all : Bool) : Except PyErr (List Rec) :=
  match findRecordIds s (.vStr username) (.vStr domain) all with
  | .error e => .error e
  | .ok ids => .ok (ids.map (fun i => s.heap.getD i []))

/-! ### Submission (`submitRecord`, lines 130-175) -/

/-- `submitRecord` (lines 130-175): validate `username` / `domain` /
`key`, regularize the domain in place on the record, insert the same
record instance into both indices, mark dirty, stamp `updated_ts` on the
(shared) instance, then flush.  Errors leave the object unmutated, as in
the source (every raise happens before the first mutation). -/
def submitRecord (record : Rec) (now : String) (s : Store) : (Except PyErr Unit) × Store :=
  match pyGet record "username" with
  | .error e => (.error e, s)
  | .ok vu =>
  if ¬ pyTruthy vu then
    (.error (.exc "The 'username' field was empty. Must have a username."), s)
  else
  match pyGet record "domain" with
  | .error e => (.error e, s)
  | .ok vd =>
  if ¬ pyTruthy vd then
    (.error (.exc "The 'domain' field was empty. Must have a domain name."), s)
  else
  match pyGet record "key" with
  | .error e => (.error e, s)
  | .ok vk =>
  if ¬ pyTruthy vk then
    (.error (.exc "The 'key' field was empty. Must have a key."), s)
  else
  match regularizeDomainV vd with
  | .error e => (.error e, s)
  | .ok rdomain =>
    let record1 := alSet record "domain" (.vStr rdomain)
    let i := s.heap.length
    let bu := indexInsert s.byUser vu (.vStr rdomain) i
    let bd := indexInsert s.byDomain (.vStr rdomain) vu i
    let record2 := alSet record1 "updated_ts" (.vStr now)
    let s1 : Store :=
      { s with heap := s.heap ++ [record2], byUser := bu, byDomain := bd, dirty := true }
    (.ok (), writeKeyFile s1)

/-! ### Update (`updateRecord`, lines 252-304) -/

/-- `restricted` as computed at lines 288-291: the template field names
with `description`, `organization` and `mnemonic` removed. -/
def pyListRemove : List String → String → List String
  | [], _ => []
  | a :: rest, x => if a = x then rest else a :: pyListRemove rest x

/-- `API_KEY_DICT_TEMPLATE` (lines 22-32). -/
def API_KEY_DICT_TEMPLATE : Rec :=
  [("key", .vStr ""), ("domain", .vStr ""), ("username", .vStr ""),
   ("organization", .vStr ""), ("mnemonic", .vStr ""), ("description", .vStr ""),
   ("created_ts", .vStr ""), ("updated_ts", .vStr ""), ("expired", .vBool false)]

def restrictedFields : List String :=
  pyListRemove (pyListRemove (pyListRemove
    (API_KEY_DICT_TEMPLATE.map Prod.fst) "description") "organization") "mnemonic"

/-- The in-place mutation of the matched record in `updateRecord`
(lines 281-299): delete every field of `r` absent from the patch (no
field is exempt), copy every non-restricted field of the patch, then
stamp `updated_ts`. -/
def updateOneRec (r patch : Rec) (now : String) : Rec :=
  let r1 := r.filter (fun kv => (alGet patch kv.1).isSome)
  let r2 := patch.foldl
    (fun acc kv => if kv.1 ∈ restrictedFields then acc else alSet acc kv.1 kv.2) r1
  alSet r2 "updated_ts" (.vStr now)

/-- The candidate loop of `updateRecord` (lines 279-304): mutate and
flush at the first record whose `key` equals the patch's, else `False`. -/
def updateLoop (patch : Rec) (pk : Val) (now : String) (s : Store) :
    List Nat → (Except PyErr Bool) × Store
  | [] => (.ok false, s)
  | i :: rest =>
    match pyGet (s.heap.getD i []) "key" with
    | .error e => (.error e, s)
    | .ok rk =>
      if pk = rk then
        let s1 : Store :=
          { s with heap := s.heap.set i (updateOneRec (s.heap.getD i []) patch now),
                   dirty := true }
        (.ok true, writeKeyFile s1)
      else updateLoop patch pk now s rest

/-- `updateRecord` (lines 252-304). -/
def updateRecord (record : Rec) (now : String) (s : Store) : (Except PyErr Bool) × Store :=
  if record = [] then (.error (.exc "Cannot update a key without a key record."), s)
  else
  match pyGet record "username" with
  | .error e => (.error e, s)
  | .ok vu =>
  match pyGet record "domain" with
  | .error e => (.error e, s)
  | .ok vd =>
  match regularizeDomainV vd with
  | .error e => (.error e, s)
  | .ok rdomain =>
  if ¬ pyTruthy vu ∧ rdomain = "" then
    (.error (.exc "Cannot update a key without either a username or a domain."), s)
  else
  match pyGet record "key" with
  | .error e => (.error e, s)
  | .ok vk =>
  if ¬ pyTruthy vk then
    (.error (.exc "The 'key' field was empty. Cannot update a record without the key."), s)
  else
  match findRecordIds s vu (.vStr rdomain) false with
  | .error e => (.error e, s)
  | .ok found => updateLoop record vk now s found

/-! ### Expire (`expireRecord`, lines 310-343) -/

/-- The candidate loop of `expireRecord` (lines 335-343). -/
def expireLoop (pk : Val) (now : String) (s : Store) :
    List Nat → (Except PyErr Bool) × Store
  | [] => (.ok false, s)
  | i :: rest =>
    match pyGet (s.heap.getD i []) "key" with
    | .error e => (.error e, s)
    | .ok rk =>
      if pk = rk then
        let r1 := alSet (alSet (s.heap.getD i []) "expired" (.vBool true))
                    "updated_ts" (.vStr now)
        let s1 : Store := { s with heap := s.heap.set i r1, dirty := true }
        (.ok true, writeKeyFile s1)
      else expireLoop pk now s rest

/-- `expireRecord` (lines 310-343). -/
def expireRecord (record : Rec) (now : String) (s : Store) : (Except PyErr Bool) × Store :=
  if record = [] then (.error (.exc "Cannot expire a key without a key record."), s)
  else
  match pyGet record "username" with
  | .error e => (.error e, s)
  | .ok vu =>
  match pyGet record "domain" with
  | .error e => (.error e, s)
  | .ok vd =>
  match regularizeDomainV vd with
  | .error e => (.error e, s)
  | .ok rdomain =>
  if ¬ pyTruthy vu ∧ rdomain = "" then
    (.error (.exc "Cannot expire a key without either a username or a domain."), s)
  else
  match pyGet record "key" with
  | .error e => (.error e, s)
  | .ok vk =>
  if ¬ pyTruthy vk then
    (.error (.exc "The 'key' field was empty. Cannot expire a key without the key."), s)
  else
  match findRecordIds s vu (.vStr rdomain) false with
  | .error e => (.error e, s)
  | .ok found => expireLoop vk now s found

/-! ### Listing (`listRecords`, lines 349-413) -/

/-- The projection built for each listed key (lines 376-381). -/
def mkListEntry (r : Rec) : Except PyErr Rec :=
  match pyGet r "username" with
  | .error e => .error e
  | .ok u =>
  match pyGet r "domain" with
  | .error e => .error e
  | .ok d =>
  match pyGet r "description" with
  | .error e => .error e
  | .ok de =>
  match pyGet r "expired" with
  | .error e => .error e
  | .ok ex =>
    .ok [("username", u), ("domain", d), ("description", de), ("expired", ex)]

/-- The listing loop over a list of record addresses. -/
def listLoop (heap : List Rec) : List Nat → Except PyErr (List Rec)
  | [] => .ok []
  | i :: rest =>
    match mkListEntry (heap.getD i []) with
    | .error e => .error e
    | .ok k =>
      match listLoop heap rest with
      | .error e => .error e
      | .ok l => .ok (k :: l)

/-- The final fallback of `listRecords` (lines 401-413): every record of
the by-user index, in user-then-domain order. -/
def listAll (s : Store) : Except PyErr (List Rec) :=
  listLoop s.heap (flattenIds s.byUser)

/-- `listRecords` (lines 349-413).  Note both filtered branches `return`
only when their lookup succeeds (and the domain branch returns inside the
loop over accounts, so it lists the first account only); in every other
case control falls through to the full listing. -/
def listRecords (s : Store) (username domain : String) : Except PyErr (List Rec) :=
  match (if username ≠ "" then alGet s.byUser (.vStr username) else none) with
  | some userDomains => listLoop s.heap ((userDomains.map Prod.snd).flatten)
  | none =>
    match (if domain ≠ "" then alGet s.byDomain (.vStr (regularizeDomain domain)) else none) with
    | some ((_, keyList) :: _) => listLoop s.heap keyList
    | _ => listAll s

/-! ### Load (`__read_key_file__`, lines 489-519) and `__init__` -/

/-- The index-rebuild loop of `__read_key_file__` (lines 500-518): each
record needs `username` and `domain` entries; a truthy username puts the
record into by-user, a truthy domain into by-domain (same instance).
An exception leaves the partially built state behind, as in Python. -/
def loadLoop : List Rec → Store → (Except PyErr Unit) × Store
  | [], s => (.ok (), s)
  | r :: rest, s =>
    match pyGet r "username" with
    | .error e => (.error e, s)
    | .ok vu =>
    match pyGet r "domain" with
    | .error e => (.error e, s)
    | .ok vd =>
      let i := s.heap.length
      let s1 : Store := { s with heap := s.heap ++ [r] }
      let s2 : Store :=
        if pyTruthy vu then { s1 with byUser := indexInsert s1.byUser vu vd i } else s1
      let s3 : Store :=
        if pyTruthy vd then { s2 with byDomain := indexInsert s2.byDomain vd vu i } else s2
      loadLoop rest s3

/-- `__read_key_file__` (lines 489-519): refuse to load over unsaved
changes, then read the backing file (a missing file raises the `open`
error, an unparsable one the `json.load` error) and rebuild the indices. -/
def readKeyFile (s : Store) : (Except PyErr Unit) × Store :=
  if s.dirty then
    (.error (.exc "Looks like there are new keys that have not be written."), s)
  else
    match s.file with
    | .missing => (.error .fileMissing, s)
    | .malformed => (.error .fileMalformed, s)
    | .ok recs => loadLoop recs s

/-- `__init__` (lines 76-109): start closed and empty, try to load, and
record either the open status or the caught exception's text — the
constructor never aborts. -/
def kmInit (file : FileContent) : Store :=
  let s : Store :=
    { heap := [], objHeap := [], byUser := [], byDomain := [], dirty := false,
      file := file, status := KM_STATUS_CLOSED }
  match readKeyFile s with
  | (.ok _, s1) => { s1 with status := KM_STATUS_OPEN }
  | (.error e, s1) => { s1 with status := "Exception: " ++ errStr e }

/-! ### Observation of nested mutable objects -/

/-- Resolve one level of object reference against an object heap. -/
def derefVal (oh : List Val) : Val → Val
  | .vObj a => oh.getD a (.vStr "")
  | v => v

/-- The observable content of a record: its fields with object
references dereferenced (what Python sees when it reads the record). -/
def obsRec (oh : List Val) (r : Rec) : Rec :=
  r.map (fun kv => (kv.1, derefVal oh kv.2))

/-! ### Lemmas about the domain regularizer -/

theorem char_toNat_ofNat (n : Nat) (h : n.isValidChar) : (Char.ofNat n).toNat = n := by
  simp [Char.ofNat, Char.toNat, h, Char.ofNatAux]
  rfl

theorem pyToLower_idem (c : Char) : pyToLower (pyToLower c) = pyToLower c := by
  by_cases h : 65 ≤ c.toNat ∧ c.toNat ≤ 90
  · have hv : (c.toNat + 32).isValidChar := Or.inl (by omega)
    have ht : (Char.ofNat (c.toNat + 32)).toNat = c.toNat + 32 := char_toNat_ofNat _ hv
    have h2 : pyToLower c = Char.ofNat (c.toNat + 32) := by unfold pyToLower; rw [if_pos h]
    rw [h2]
    unfold pyToLower
    rw [if_neg (by rw [ht]; omega)]
  · have h2 : pyToLower c = c := by unfold pyToLower; rw [if_neg h]
    rw [h2, h2]

theorem mem_pyPartition_fst {sep s : List Char} {c : Char}
    (h : c ∈ (pyPartitionList sep s).1) : c ∈ s := by
  induction s with
  | nil => simpa [pyPartitionList] using h
  | cons x rest ih =>
    by_cases hs : seqStarts sep (x :: rest) = true
    · simp [pyPartitionList, hs] at h
    · simp only [pyPartitionList, hs] at h
      simp only [Bool.false_eq_true, if_false, List.mem_cons] at h
      rcases h with h | h
      · simp [h]
      · exact List.mem_cons_of_mem _ (ih h)

theorem mem_pyPartition_after {sep s : List Char} {c : Char}
    (h : c ∈ (pyPartitionList sep s).2.2) : c ∈ s := by
  induction s with
  | nil => simpa [pyPartitionList] using h
  | cons x rest ih =>
    by_cases hs : seqStarts sep (x :: rest) = true
    · simp only [pyPartitionList, hs, if_pos] at h
      exact List.mem_of_mem_drop h
    · simp only [pyPartitionList, hs] at h
      simp only [Bool.false_eq_true, if_false] at h
      exact List.mem_cons_of_mem _ (ih h)

theorem pyPartition_single_not_mem (c : Char) (s : List Char) :
    c ∉ (pyPartitionList [c] s).1 := by
  induction s with
  | nil => simp [pyPartitionList]
  | cons x rest ih =>
    by_cases hx : c = x
    · subst hx
      simp [pyPartitionList, seqStarts]
    · have hs : seqStarts [c] (x :: rest) = false := by
        simp [seqStarts]
        exact fun hcx => absurd hcx hx
      simp only [pyPartitionList, hs, Bool.false_eq_true, if_false]
      intro hmem
      rcases List.mem_cons.mp hmem with h | h
      · exact hx h
      · exact ih h

theorem pyPartition_not_head {c : Char} {tl s : List Char} (h : c ∉ s) :
    pyPartitionList (c :: tl) s = (s, [], []) := by
  induction s with
  | nil => simp [pyPartitionList]
  | cons x rest ih =>
    have hxc : ¬ (c = x) := fun he => h (he ▸ List.mem_cons_self x rest)
    have hs : seqStarts (c :: tl) (x :: rest) = false := by
      simp [seqStarts]
      intro hcx
      exact absurd hcx hxc
    have hrest : c ∉ rest := fun hm => h (List.mem_cons_of_mem _ hm)
    simp [pyPartitionList, hs, ih hrest]

theorem pySplit_headD (sep s : List Char) :
    (pySplitList sep s).headD [] = (pyPartitionList sep s).1 := by
  unfold pySplitList pySplitGo
  rcases hp : pyPartitionList sep s with ⟨a, m, r⟩
  cases m <;> simp

theorem dropWhile_eq_self_of_not_mem {c : Char} {l : List Char} (h : c ∉ l) :
    l.dropWhile (fun x => x == c) = l := by
  cases l with
  | nil => rfl
  | cons x rest =>
    have hx : ¬ (x = c) := fun he => h (he ▸ List.mem_cons_self x rest)
    have hb : (x == c) = false := by simp [hx]
    simp [List.dropWhile, hb]

theorem list_map_fixed {f : Char → Char} {l : List Char} (h : ∀ c ∈ l, f c = c) :
    l.map f = l := by
  induction l with
  | nil => rfl
  | cons x rest ih =>
    simp only [List.map_cons, h x (List.mem_cons_self x rest), List.cons.injEq, true_and]
    exact ih (fun c hc => h c (List.mem_cons_of_mem _ hc))

theorem mem_regCore {l : List Char} {c : Char} (h : c ∈ regCore l) : c ∈ l := by
  unfold regCore at h
  simp only at h
  have h3 := mem_pyPartition_fst h
  rw [pySplit_headD] at h3
  have h2 := mem_pyPartition_fst h3
  have h1 := List.Sublist.subset (List.dropWhile_sublist _) h2
  by_cases hp : (pyPartitionList [':', '/', '/'] l).2.2 = []
  · rw [if_pos hp] at h1
    exact mem_pyPartition_fst h1
  · rw [if_neg hp] at h1
    exact mem_pyPartition_after h1

theorem regCore_no_colon (l : List Char) : ':' ∉ regCore l := by
  unfold regCore
  exact pyPartition_single_not_mem _ _

theorem regCore_no_slash (l : List Char) : '/' ∉ regCore l := by
  unfold regCore
  intro h
  have h3 := mem_pyPartition_fst h
  rw [pySplit_headD] at h3
  exact pyPartition_single_not_mem _ _ h3

theorem regCore_fixed {l : List Char} (hc : ':' ∉ l) (hs : '/' ∉ l) :
    regCore l = l := by
  have e1 : pyPartitionList [':', '/', '/'] l = (l, [], []) := pyPartition_not_head hc
  have e2 : List.dropWhile (fun c => c == '/') l = l := dropWhile_eq_self_of_not_mem hs
  have e3 : pyPartitionList ['/'] l = (l, [], []) := pyPartition_not_head hs
  have e4 : pyPartitionList [':'] l = (l, [], []) := pyPartition_not_head hc
  simp only [regCore, e1, e2, pySplit_headD]
  rw [if_true, e2, e3]
  simp [e4]

theorem regularizeDomain_idem (x : String) :
    regularizeDomain (regularizeDomain x) = regularizeDomain x := by
  by_cases hx : x = ""
  · subst hx; rfl
  · have hy : regularizeDomain x = ⟨regCore (x.data.map pyToLower)⟩ := by
      unfold regularizeDomain; rw [if_neg hx]
    rw [hy]
    by_cases hme : regCore (x.data.map pyToLower) = []
    · rw [hme]; rfl
    · have hyne : (⟨regCore (x.data.map pyToLower)⟩ : String) ≠ "" := by
        intro hcon; exact hme (congrArg String.data hcon)
      unfold regularizeDomain
      rw [if_neg hyne]
      have hfix : (regCore (x.data.map pyToLower)).map pyToLower
          = regCore (x.data.map pyToLower) := by
        apply list_map_fixed
        intro c hc
        rcases List.mem_map.mp (mem_regCore hc) with ⟨c', _, hceq⟩
        rw [← hceq]; exact pyToLower_idem c'
      show (⟨regCore ((regCore (x.data.map pyToLower)).map pyToLower)⟩ : String) = _
      rw [hfix, regCore_fixed (regCore_no_colon _) (regCore_no_slash _)]

/-- C7: `__regularize_domain__` is embedded as the total Lean function
`regularizeDomain` (it is deterministic and pure by construction, and the
source performs only total string operations): it maps the empty string
to the empty string, it is idempotent on every input string, and it maps
"HTTPS://Foo.COM:8080/path" to "foo.com". -/
theorem c7_regularize_domain_total_idempotent :
    regularizeDomain "" = "" ∧
    (∀ x : String, regularizeDomain (regularizeDomain x) = regularizeDomain x) ∧
    regularizeDomain "HTTPS://Foo.COM:8080/path" = "foo.com" :=
  ⟨rfl, regularizeDomain_idem, by decide⟩

/-! ### Association-list and index lemmas -/

theorem alGet_alSet {κ α : Type} [DecidableEq κ] (l : List (κ × α)) (k : κ) (v : α) (k' : κ) :
    alGet (alSet l k v) k' = if k' = k then some v else alGet l k' := by
  induction l with
  | nil => by_cases h : k' = k <;> simp_all [alSet, alGet, eq_comm]
  | cons hd tl ih =>
    rcases hd with ⟨hk, hv⟩
    by_cases h1 : hk = k <;> by_cases h2 : k' = hk <;>
      simp_all [alSet, alGet, eq_comm]

theorem alGet_alEnsure_self {κ α : Type} [DecidableEq κ] (l : List (κ × α)) (k : κ) (d : α) :
    alGet (alEnsure l k d) k = some ((alGet l k).getD d) := by
  unfold alEnsure
  rcases h : alGet l k with _ | v
  · simp [h, alGet_alSet]
  · simp [h]

theorem alGet_alEnsure_ne {κ α : Type} [DecidableEq κ] (l : List (κ × α)) (k k' : κ) (d : α)
    (h : k' ≠ k) : alGet (alEnsure l k d) k' = alGet l k' := by
  unfold alEnsure
  rcases hn : alGet l k with _ | v
  · simp [alGet_alSet, h]
  · simp

theorem idsAt_indexInsert (idx : Idx) (k1 k2 : Val) (i : Nat) (a b : Val) :
    idsAt (indexInsert idx k1 k2 i) a b =
      if a = k1 ∧ b = k2 then idsAt idx k1 k2 ++ [i] else idsAt idx a b := by
  unfold idsAt indexInsert
  by_cases ha : a = k1
  · subst ha
    by_cases hb : b = k2
    · subst hb
      simp [alGet_alSet, alGet_alEnsure_self]
    · simp [alGet_alSet, alGet_alEnsure_self, alGet_alEnsure_ne _ _ _ _ hb, hb]
  · have hne : ¬ (a = k1 ∧ b = k2) := fun h => ha h.1
    simp [alGet_alSet, alGet_alEnsure_ne _ _ _ _ ha, ha, hne]

/-! ### Index consistency (C6) -/

/-- The index-consistency invariant: for every (account, domain) pair the
two indices hold the same record instances (the same heap addresses, in
the same order). -/
def Consistent (s : Store) : Prop :=
  ∀ u d : Val, idsAt s.byUser u d = idsAt s.byDomain d u

theorem writeKeyFile_byUser (s : Store) : (writeKeyFile s).byUser = s.byUser := by
  unfold writeKeyFile; split <;> rfl

theorem writeKeyFile_byDomain (s : Store) : (writeKeyFile s).byDomain = s.byDomain := by
  unfold writeKeyFile; split <;> rfl

theorem writeKeyFile_heap (s : Store) : (writeKeyFile s).heap = s.heap := by
  unfold writeKeyFile; split <;> rfl

theorem writeKeyFile_dirty (s : Store) : (writeKeyFile s).dirty = false := by
  unfold writeKeyFile
  split
  · rfl
  · rename_i h
    simp only [Bool.not_eq_true] at h
    exact h

theorem updateLoop_frame (patch : Rec) (pk : Val) (now : String) (s : Store)
    (ids : List Nat) :
    (updateLoop patch pk now s ids).2.byUser = s.byUser ∧
    (updateLoop patch pk now s ids).2.byDomain = s.byDomain ∧
    ((updateLoop patch pk now s ids).2.dirty = false ∨
      (updateLoop patch pk now s ids).2.dirty = s.dirty) := by
  induction ids with
  | nil => simp [updateLoop]
  | cons i rest ih =>
    unfold updateLoop
    rcases h : pyGet (s.heap.getD i []) "key" with e | rk <;> simp only [h]
    · simp
    · by_cases hk : pk = rk
      · simp only [if_pos hk]
        exact ⟨writeKeyFile_byUser _, writeKeyFile_byDomain _, Or.inl (writeKeyFile_dirty _)⟩
      · simp only [if_neg hk]
        exact ih

theorem expireLoop_frame (pk : Val) (now : String) (s : Store) (ids : List Nat) :
    (expireLoop pk now s ids).2.byUser = s.byUser ∧
    (expireLoop pk now s ids).2.byDomain = s.byDomain ∧
    ((expireLoop pk now s ids).2.dirty = false ∨
      (expireLoop pk now s ids).2.dirty = s.dirty) := by
  induction ids with
  | nil => simp [expireLoop]
  | cons i rest ih =>
    unfold expireLoop
    rcases h : pyGet (s.heap.getD i []) "key" with e | rk <;> simp only [h]
    · simp
    · by_cases hk : pk = rk
      · simp only [if_pos hk]
        exact ⟨writeKeyFile_byUser _, writeKeyFile_byDomain _, Or.inl (writeKeyFile_dirty _)⟩
      · simp only [if_neg hk]
        exact ih

/-- C6: starting from a consistent, flushed store, any `submitRecord`,
`updateRecord` or `expireRecord` call (whatever its outcome) leaves the
by-account and by-domain indices with identical record-instance lists for
every (account, domain) pair, and leaves the dirty flag false (flush runs
synchronously inside each mutating call). -/
theorem c6_index_consistency_dirty (s : Store) (hC : Consistent s) (hd : s.dirty = false) :
    (∀ r now, Consistent (submitRecord r now s).2 ∧ (submitRecord r now s).2.dirty = false) ∧
    (∀ p now, Consistent (updateRecord p now s).2 ∧ (updateRecord p now s).2.dirty = false) ∧
    (∀ p now, Consistent (expireRecord p now s).2 ∧ (expireRecord p now s).2.dirty = false) := by
  refine ⟨fun r now => ?_, fun p now => ?_, fun p now => ?_⟩
  · unfold submitRecord
    rcases h1 : pyGet r "username" with e | vu <;> simp only [h1]
    · exact ⟨hC, hd⟩
    by_cases h2 : ¬ pyTruthy vu
    · rw [if_pos h2]; exact ⟨hC, hd⟩
    rw [if_neg h2]
    rcases h3 : pyGet r "domain" with e | vd <;> simp only [h3]
    · exact ⟨hC, hd⟩
    by_cases h4 : ¬ pyTruthy vd
    · rw [if_pos h4]; exact ⟨hC, hd⟩
    rw [if_neg h4]
    rcases h5 : pyGet r "key" with e | vk <;> simp only [h5]
    · exact ⟨hC, hd⟩
    by_cases h6 : ¬ pyTruthy vk
    · rw [if_pos h6]; exact ⟨hC, hd⟩
    rw [if_neg h6]
    rcases h7 : regularizeDomainV vd with e | rd <;> simp only [h7]
    · exact ⟨hC, hd⟩
    refine ⟨?_, writeKeyFile_dirty _⟩
    intro a b
    rw [writeKeyFile_byUser, writeKeyFile_byDomain]
    simp only
    rw [idsAt_indexInsert, idsAt_indexInsert]
    by_cases hcond : a = vu ∧ b = Val.vStr rd
    · rw [if_pos hcond, if_pos ⟨hcond.2, hcond.1⟩, hC]
    · rw [if_neg hcond, if_neg (fun hx => hcond ⟨hx.2, hx.1⟩), hC]
  · unfold updateRecord
    by_cases h0 : p = []
    · simp only [if_pos h0]; exact ⟨hC, hd⟩
    simp only [if_neg h0]
    rcases h1 : pyGet p "username" with e | vu <;> simp only [h1]
    · exact ⟨hC, hd⟩
    rcases h2 : pyGet p "domain" with e | vd <;> simp only [h2]
    · exact ⟨hC, hd⟩
    rcases h3 : regularizeDomainV vd with e | rd <;> simp only [h3]
    · exact ⟨hC, hd⟩
    by_cases h4 : ¬ pyTruthy vu ∧ rd = ""
    · simp only [if_pos h4]; exact ⟨hC, hd⟩
    simp only [if_neg h4]
    rcases h5 : pyGet p "key" with e | vk <;> simp only [h5]
    · exact ⟨hC, hd⟩
    by_cases h6 : ¬ pyTruthy vk
    · rw [if_pos h6]; exact ⟨hC, hd⟩
    rw [if_neg h6]
    rcases h7 : findRecordIds s vu (.vStr rd) false with e | found <;> simp only [h7]
    · exact ⟨hC, hd⟩
    obtain ⟨hbu, hbd, hdirty⟩ := updateLoop_frame p vk now s found
    refine ⟨?_, ?_⟩
    · intro a b; rw [hbu, hbd]; exact hC a b
    · rcases hdirty with h | h
      · exact h
      · rw [h, hd]
  · unfold expireRecord
    by_cases h0 : p = []
    · simp only [if_pos h0]; exact ⟨hC, hd⟩
    simp only [if_neg h0]
    rcases h1 : pyGet p "username" with e | vu <;> simp only [h1]
    · exact ⟨hC, hd⟩
    rcases h2 : pyGet p "domain" with e | vd <;> simp only [h2]
    · exact ⟨hC, hd⟩
    rcases h3 : regularizeDomainV vd with e | rd <;> simp only [h3]
    · exact ⟨hC, hd⟩
    by_cases h4 : ¬ pyTruthy vu ∧ rd = ""
    · simp only [if_pos h4]; exact ⟨hC, hd⟩
    simp only [if_neg h4]
    rcases h5 : pyGet p "key" with e | vk <;> simp only [h5]
    · exact ⟨hC, hd⟩
    by_cases h6 : ¬ pyTruthy vk
    · rw [if_pos h6]; exact ⟨hC, hd⟩
    rw [if_neg h6]
    rcases h7 : findRecordIds s vu (.vStr rd) false with e | found <;> simp only [h7]
    · exact ⟨hC, hd⟩
    obtain ⟨hbu, hbd, hdirty⟩ := expireLoop_frame vk now s found
    refine ⟨?_, ?_⟩
    · intro a b; rw [hbu, hbd]; exact hC a b
    · rcases hdirty with h | h
      · exact h
      · rw [h, hd]

/-! ### Domain-only lookup takes the first account only (C5) -/

/-- C5: in `__find_record__`, when no username is supplied (or the
supplied username is not a key of the by-user index) and the regularized
domain is present in by-domain, the result is the expired-filtered
record sequence of the **first** account stored under that domain, and
the sequences of all remaining accounts (`rest`) are ignored. -/
theorem c5_domain_lookup_first_account (s : Store) (username domain : Val) (all : Bool)
    (nd : String) (du : Val) (kl : List Nat) (rest : List (Val × List Nat))
    (hu : pyTruthy username = false ∨ alGet s.byUser username = none)
    (hd : pyTruthy domain = true)
    (hnd : regularizeDomainV domain = .ok nd)
    (hbd : alGet s.byDomain (.vStr nd) = some ((du, kl) :: rest)) :
    findRecordIds s username domain all = expFilter s.heap all kl := by
  have hfb : findByDomain s domain all = expFilter s.heap all kl := by
    unfold findByDomain
    simp only [hd, hnd, hbd, if_true]
  unfold findRecordIds
  rcases hu with hu | hu
  · simp only [hu, Bool.false_eq_true, if_false, hfb]
  · by_cases ht : pyTruthy username
    · simp only [ht, if_true, hu, hfb]
    · simp only [Bool.not_eq_true] at ht
      simp only [ht, Bool.false_eq_true, if_false, hfb]

/-- A store holding two accounts under the same domain, to exercise the
first-match short-circuit. -/
def storeTwoAccounts : Store :=
  { heap := [[("key", .vStr "k1"), ("domain", .vStr "svc.io"), ("username", .vStr "u1"),
              ("expired", .vBool false)],
             [("key", .vStr "k2"), ("domain", .vStr "svc.io"), ("username", .vStr "u2"),
              ("expired", .vBool false)]],
    objHeap := [],
    byUser := [(.vStr "u1", [(.vStr "svc.io", [0])]), (.vStr "u2", [(.vStr "svc.io", [1])])],
    byDomain := [(.vStr "svc.io", [(.vStr "u1", [0]), (.vStr "u2", [1])])],
    dirty := false,
    file := .missing,
    status := KM_STATUS_OPEN }

theorem c5_witness :
    (pyTruthy (Val.vStr "") = false ∨ alGet storeTwoAccounts.byUser (.vStr "") = none) ∧
    pyTruthy (Val.vStr "svc.io") = true ∧
    regularizeDomainV (.vStr "svc.io") = .ok "svc.io" ∧
    alGet storeTwoAccounts.byDomain (.vStr "svc.io")
      = some ((Val.vStr "u1", [0]) :: [(Val.vStr "u2", [1])]) ∧
    findRecordIds storeTwoAccounts (.vStr "") (.vStr "svc.io") false
      = expFilter storeTwoAccounts.heap false [0] :=
  ⟨Or.inl (by decide), by decide, rfl, rfl,
    c5_domain_lookup_first_account storeTwoAccounts (.vStr "") (.vStr "svc.io") false
      "svc.io" (.vStr "u1") [0] [(Val.vStr "u2", [1])]
      (Or.inl (by decide)) (by decide) rfl rfl⟩

/-! ### Listing falls through to the full listing (C3) -/

/-- A one-record store with a listable record (all projected fields
present). -/
def storeAlice : Store :=
  { heap := [[("key", .vStr "k1"), ("domain", .vStr "api.example.com"),
              ("username", .vStr "alice"), ("description", .vStr "a key"),
              ("expired", .vBool false)]],
    objHeap := [],
    byUser := [(.vStr "alice", [(.vStr "api.example.com", [0])])],
    byDomain := [(.vStr "api.example.com", [(.vStr "alice", [0])])],
    dirty := false,
    file := .missing,
    status := KM_STATUS_OPEN }

/-- C3 counterexample: `listRecords` with an account that has no entry in
the by-user index and no domain argument returns the **full listing**
(here: alice's record), not the empty sequence claimed by the spec. -/
theorem c3_counterexample :
    listRecords storeAlice "bob" "" =
      .ok [[("username", .vStr "alice"), ("domain", .vStr "api.example.com"),
            ("description", .vStr "a key"), ("expired", .vBool false)]] ∧
    listRecords storeAlice "bob" "" ≠ .ok [] := by
  refine ⟨rfl, fun h => ?_⟩
  rw [show listRecords storeAlice "bob" "" =
      .ok [[("username", .vStr "alice"), ("domain", .vStr "api.example.com"),
            ("description", .vStr "a key"), ("expired", .vBool false)]] from rfl] at h
  exact absurd (Except.ok.inj h) (by decide)

/-- C3 amended: `listRecords` with a username that is not a key of the
by-user index and no domain does *not* follow `__find_record__`'s
empty-result rule; it falls through to the final loop and returns the
full listing (the same result as calling it with no filters at all). -/
theorem c3_list_unknown_account_full_listing (s : Store) (username : String)
    (hne : username ≠ "") (hnf : alGet s.byUser (.vStr username) = none) :
    listRecords s username "" = listAll s ∧ listRecords s "" "" = listAll s := by
  have h0 : ¬ (("" : String) ≠ "") := by simp
  constructor
  · unfold listRecords
    rw [if_pos hne, hnf]
    simp only [if_neg h0]
  · unfold listRecords
    simp only [if_neg h0]

theorem c3_witness :
    ("bob" : String) ≠ "" ∧ alGet storeAlice.byUser (.vStr "bob") = none ∧
    (listRecords storeAlice "bob" "" = listAll storeAlice ∧
      listRecords storeAlice "" "" = listAll storeAlice) :=
  ⟨by decide, by decide,
    c3_list_unknown_account_full_listing storeAlice "bob" (by decide) (by decide)⟩

/-! ### Expire searches non-expired records only (C2) -/

/-- The patch identifying alice's record. -/
def patchAlice : Rec :=
  [("username", .vStr "alice"), ("domain", .vStr "api.example.com"), ("key", .vStr "k1")]

/-- C2 counterexample: after a first successful expire, a second expire
call with the same patch does **not** find the (now expired) record —
`expireRecord` passes `all=False` to `__find_record__` — so it returns
`False` (not `True` as claimed), leaving the store unchanged. -/
theorem c2_counterexample :
    (expireRecord patchAlice "t2" storeAlice).1 = .ok true ∧
    (expireRecord patchAlice "t3" (expireRecord patchAlice "t2" storeAlice).2).1
      = .ok false ∧
    (expireRecord patchAlice "t3" (expireRecord patchAlice "t2" storeAlice).2).2
      = (expireRecord patchAlice "t2" storeAlice).2 :=
  ⟨rfl, rfl, by decide⟩

theorem expireLoop_no_match (pk : Val) (now : String) (s : Store) (ids : List Nat)
    (h : ∀ i ∈ ids, ∃ kv, alGet (s.heap.getD i []) "key" = some kv ∧ kv ≠ pk) :
    expireLoop pk now s ids = (.ok false, s) := by
  induction ids with
  | nil => rfl
  | cons i rest ih =>
    obtain ⟨kv, hkv, hne⟩ := h i (by simp)
    have e : pyGet (s.heap.getD i []) "key" = .ok kv := by unfold pyGet; rw [hkv]
    unfold expireLoop
    simp only [e]
    rw [if_neg (fun he => hne he.symm)]
    exact ih (fun j hj => h j (by simp [hj]))

/-- C2 amended: the internal lookup used by `expireRecord` searches with
`all=False` (`includeExpired=false`, line 334), so once every candidate
whose key could match is expired — in particular after a first successful
expire of the only matching record — a further expire call with the same
patch finds no candidate with the patch's key, returns `False`, and
leaves the store state unchanged. -/
theorem c2_expire_second_call_returns_false (s : Store) (p : Rec) (now : String)
    (vu vd vk : Val) (rd : String) (found : List Nat)
    (hp : p ≠ [])
    (hu : alGet p "username" = some vu)
    (hd : alGet p "domain" = some vd)
    (hrd : regularizeDomainV vd = .ok rd)
    (hval : ¬ (¬ pyTruthy vu ∧ rd = ""))
    (hk : alGet p "key" = some vk) (hkt : pyTruthy vk)
    (hfound : findRecordIds s vu (.vStr rd) false = .ok found)
    (hnomatch : ∀ i ∈ found, ∃ kv, alGet (s.heap.getD i []) "key" = some kv ∧ kv ≠ vk) :
    expireRecord p now s = (.ok false, s) := by
  have e1 : pyGet p "username" = .ok vu := by unfold pyGet; rw [hu]
  have e2 : pyGet p "domain" = .ok vd := by unfold pyGet; rw [hd]
  have e3 : pyGet p "key" = .ok vk := by unfold pyGet; rw [hk]
  unfold expireRecord
  rw [if_neg hp]
  simp only [e1, e2, hrd, e3]
  rw [if_neg hval, if_neg (not_not_intro hkt)]
  simp only [hfound]
  exact expireLoop_no_match vk now s found hnomatch

theorem c2_witness :
    patchAlice ≠ [] ∧
    alGet patchAlice "username" = some (.vStr "alice") ∧
    alGet patchAlice "domain" = some (.vStr "api.example.com") ∧
    regularizeDomainV (.vStr "api.example.com") = .ok "api.example.com" ∧
    ¬ (¬ pyTruthy (Val.vStr "alice") ∧ ("api.example.com" : String) = "") ∧
    alGet patchAlice "key" = some (.vStr "k1") ∧
    pyTruthy (Val.vStr "k1") = true ∧
    findRecordIds (expireRecord patchAlice "t2" storeAlice).2
      (.vStr "alice") (.vStr "api.example.com") false = .ok [] ∧
    expireRecord patchAlice "t3" (expireRecord patchAlice "t2" storeAlice).2
      = (.ok false, (expireRecord patchAlice "t2" storeAlice).2) :=
  ⟨by decide, by decide, by decide, rfl, by decide, by decide, by decide, rfl,
    c2_expire_second_call_returns_false _ patchAlice "t3"
      (.vStr "alice") (.vStr "api.example.com") (.vStr "k1") "api.example.com" []
      (by decide) (by decide) (by decide) rfl (by decide) (by decide) (by decide)
      rfl (by simp)⟩

/-! ### Patch-field reads in update/expire (C10) -/

/-- C10 counterexample: a non-empty patch missing the `key` entry whose
`username` and `domain` are both falsy fails the username-or-domain
validation *before* `record['key']` is ever read, so the call raises the
validation `Exception`, not a `KeyError` — for such patches the claim's
"always a lookup exception" is wrong. -/
theorem c10_counterexample :
    ([("username", Val.vStr ""), ("domain", Val.vStr "")] : Rec) ≠ [] ∧
    alGet ([("username", Val.vStr ""), ("domain", Val.vStr "")] : Rec) "key" = none ∧
    updateRecord [("username", .vStr ""), ("domain", .vStr "")] "t" storeAlice
      = (.error (.exc "Cannot update a key without either a username or a domain."),
         storeAlice) ∧
    (updateRecord [("username", .vStr ""), ("domain", .vStr "")] "t" storeAlice).1
      ≠ .error (.keyError "key") ∧
    expireRecord [("username", .vStr ""), ("domain", .vStr "")] "t" storeAlice
      = (.error (.exc "Cannot expire a key without either a username or a domain."),
         storeAlice) := by
  refine ⟨by decide, by decide, rfl, fun h => ?_, rfl⟩
  have he : (updateRecord [("username", .vStr ""), ("domain", .vStr "")] "t" storeAlice).1
      = .error (.exc "Cannot update a key without either a username or a domain.") := rfl
  rw [he] at h
  exact absurd (Except.error.inj h) (by decide)

/-- C10 amended: `updateRecord` and `expireRecord` read the patch's
`username` and `domain` entries before any validation (a non-empty patch
missing either fails with that entry's `KeyError` and an unchanged
store); the `key` entry, however, is read only *after* the
username-or-domain validation, so a patch missing `key` raises
`KeyError('key')` exactly when that validation passes. -/
theorem c10_update_expire_read_patch_fields (s : Store) (p : Rec) (now : String)
    (hp : p ≠ []) :
    (alGet p "username" = none →
      updateRecord p now s = (.error (.keyError "username"), s) ∧
      expireRecord p now s = (.error (.keyError "username"), s)) ∧
    (∀ vu, alGet p "username" = some vu → alGet p "domain" = none →
      updateRecord p now s = (.error (.keyError "domain"), s) ∧
      expireRecord p now s = (.error (.keyError "domain"), s)) ∧
    (∀ vu vd rd, alGet p "username" = some vu → alGet p "domain" = some vd →
      regularizeDomainV vd = .ok rd → ¬ (¬ pyTruthy vu ∧ rd = "") →
      alGet p "key" = none →
      updateRecord p now s = (.error (.keyError "key"), s) ∧
      expireRecord p now s = (.error (.keyError "key"), s)) := by
  refine ⟨fun h => ?_, fun vu hu h => ?_, fun vu vd rd hu hd hrd hval h => ?_⟩
  · have e : pyGet p "username" = .error (.keyError "username") := by
      unfold pyGet; rw [h]
    constructor
    · unfold updateRecord; rw [if_neg hp]; simp only [e]
    · unfold expireRecord; rw [if_neg hp]; simp only [e]
  · have e1 : pyGet p "username" = .ok vu := by unfold pyGet; rw [hu]
    have e2 : pyGet p "domain" = .error (.keyError "domain") := by
      unfold pyGet; rw [h]
    constructor
    · unfold updateRecord; rw [if_neg hp]; simp only [e1, e2]
    · unfold expireRecord; rw [if_neg hp]; simp only [e1, e2]
  · have e1 : pyGet p "username" = .ok vu := by unfold pyGet; rw [hu]
    have e2 : pyGet p "domain" = .ok vd := by unfold pyGet; rw [hd]
    have e3 : pyGet p "key" = .error (.keyError "key") := by
      unfold pyGet; rw [h]
    constructor
    · unfold updateRecord; rw [if_neg hp]; simp only [e1, e2, hrd, e3]
      rw [if_neg hval]
    · unfold expireRecord; rw [if_neg hp]; simp only [e1, e2, hrd, e3]
      rw [if_neg hval]

theorem c10_witness :
    (updateRecord [("x", Val.vStr "y")] "t" storeAlice
        = (.error (.keyError "username"), storeAlice) ∧
     expireRecord [("x", Val.vStr "y")] "t" storeAlice
        = (.error (.keyError "username"), storeAlice)) ∧
    (updateRecord [("username", Val.vStr "alice")] "t" storeAlice
        = (.error (.keyError "domain"), storeAlice) ∧
     expireRecord [("username", Val.vStr "alice")] "t" storeAlice
        = (.error (.keyError "domain"), storeAlice)) ∧
    (updateRecord [("username", Val.vStr "alice"), ("domain", Val.vStr "d")] "t" storeAlice
        = (.error (.keyError "key"), storeAlice) ∧
     expireRecord [("username", Val.vStr "alice"), ("domain", Val.vStr "d")] "t" storeAlice
        = (.error (.keyError "key"), storeAlice)) :=
  ⟨(c10_update_expire_read_patch_fields storeAlice [("x", Val.vStr "y")] "t"
      (by decide)).1 (by decide),
   (c10_update_expire_read_patch_fields storeAlice [("username", Val.vStr "alice")] "t"
      (by decide)).2.1 (.vStr "alice") (by decide) (by decide),
   (c10_update_expire_read_patch_fields storeAlice
      [("username", Val.vStr "alice"), ("domain", Val.vStr "d")] "t"
      (by decide)).2.2 (.vStr "alice") (.vStr "d") "d" (by decide) (by decide) rfl
      (by decide) (by decide)⟩

/-! ### Construction on missing / malformed files (C4) -/

/-- C4 counterexample: construction on a missing backing file does *not*
fail fatally — `__init__` catches every exception — it completes and
returns a store with empty indices, a clear dirty flag, and the caught
exception's text in `status`. -/
theorem c4_counterexample :
    kmInit .missing =
      { heap := [], objHeap := [], byUser := [], byDomain := [], dirty := false,
        file := .missing,
        status := "Exception: [Errno 2] No such file or directory" } := by
  decide

/-- C4 amended: opening a store never aborts construction; a missing or
malformed file both leave the store as empty state (the bootstrap case)
with a non-open status, and the two failure modes are distinguishable
from each other and from a successful open through the exposed `status`
string. -/
theorem c4_init_catches_and_distinguishes :
    (kmInit .missing).status ≠ KM_STATUS_OPEN ∧
    (kmInit .malformed).status ≠ KM_STATUS_OPEN ∧
    (kmInit .missing).status ≠ (kmInit .malformed).status ∧
    (kmInit .missing).byUser = [] ∧ (kmInit .missing).byDomain = [] ∧
    (kmInit .missing).heap = [] ∧ (kmInit .missing).dirty = false ∧
    (kmInit .malformed).byUser = [] ∧ (kmInit .malformed).byDomain = [] ∧
    (kmInit .malformed).heap = [] ∧ (kmInit .malformed).dirty = false ∧
    (kmInit (.ok [])).status = KM_STATUS_OPEN :=
  ⟨by decide, by decide, by decide, by decide, by decide, by decide, by decide,
   by decide, by decide, by decide, by decide, by decide⟩

/-! ### findRecord copies are shallow (C9) -/

/-- A store whose record carries a caller-defined field holding a
mutable nested object (address 0 of the object heap). -/
def storeNested : Store :=
  { heap := [[("key", .vStr "k1"), ("domain", .vStr "d"), ("username", .vStr "u"),
              ("expired", .vBool false), ("extra", .vObj 0)]],
    objHeap := [.vStr "old"],
    byUser := [(.vStr "u", [(.vStr "d", [0])])],
    byDomain := [(.vStr "d", [(.vStr "u", [0])])],
    dirty := false,
    file := .missing,
    status := KM_STATUS_OPEN }

/-- C9 counterexample: `findRecord` copies records with the shallow
`dict.copy()`: the returned record still holds the reference to object 0
of the object heap, shared with the stored record, and mutating that
nested object (writing `"new"` over the heap cell) changes the
observable content of the stored record — so a mutation of a nested
value inside a caller-defined field of the result *does* change the
stored record, refuting the deep-copy claim. -/
theorem c9_counterexample :
    findRecord storeNested "u" "d" false = .ok [storeNested.heap.getD 0 []] ∧
    (Val.vObj 0) ∈ (storeNested.heap.getD 0 []).map Prod.snd ∧
    obsRec [.vStr "new"] (storeNested.heap.getD 0 [])
      ≠ obsRec storeNested.objHeap (storeNested.heap.getD 0 []) :=
  ⟨rfl, by decide, by decide⟩

/-- C9 amended: `findRecord` returns shallow copies: whenever the
internal lookup yields the addresses `ids`, the public result is exactly
the stored records' current association lists (value-equal copies whose
nested object references are shared with the store).  The call itself
never mutates the store or the dirty flag (it is embedded as a pure
reader); top-level changes to a returned copy therefore cannot affect
the store, but mutating a referenced nested object is visible through
the stored record. -/
theorem c9_find_returns_shallow_copies (s : Store) (u d : String) (all : Bool)
    (ids : List Nat)
    (hf : findRecordIds s (.vStr u) (.vStr d) all = .ok ids) :
    findRecord s u d all = .ok (ids.map (fun i => s.heap.getD i [])) := by
  unfold findRecord
  simp only [hf]

theorem c9_witness :
    findRecordIds storeNested (.vStr "u") (.vStr "d") false = .ok [0] ∧
    findRecord storeNested "u" "d" false
      = .ok ([0].map (fun i => storeNested.heap.getD i [])) :=
  ⟨rfl, c9_find_returns_shallow_copies storeNested "u" "d" false [0] rfl⟩

/-! ### Update field rules (C1) -/

theorem pyGet_ok_iff {r : Rec} {k : String} {v : Val} :
    pyGet r k = .ok v ↔ alGet r k = some v := by
  unfold pyGet
  rcases h : alGet r k with _ | w <;> simp

theorem alGet_eq_none_of_not_mem_keys {κ α : Type} [DecidableEq κ]
    {l : List (κ × α)} {k : κ} (h : k ∉ l.map Prod.fst) : alGet l k = none := by
  induction l with
  | nil => rfl
  | cons kv rest ih =>
    rcases kv with ⟨k', v'⟩
    simp only [List.map_cons, List.mem_cons, not_or] at h
    simp only [alGet]
    rw [if_neg (fun he => h.1 he.symm)]
    exact ih h.2

theorem getD_out_of_range (l : List Rec) (i : Nat) (h : l.length ≤ i) :
    l.getD i [] = [] := by
  simp [List.getD, List.getElem?_eq_none, h]

/-- The removal loop (lines 283-286): the record keeps exactly its
fields that the patch also has. -/
theorem alGet_filter_patch (r p : Rec) (f : String) :
    alGet (r.filter (fun kv => (alGet p kv.1).isSome)) f
      = if (alGet p f).isSome then alGet r f else none := by
  induction r with
  | nil => by_cases hp : (alGet p f).isSome <;> simp [alGet, hp]
  | cons kv rest ih =>
    rcases kv with ⟨k, v⟩
    by_cases hpk : (alGet p k).isSome
    · have hkeep : List.filter (fun kv => (alGet p kv.1).isSome) ((k, v) :: rest)
          = (k, v) :: List.filter (fun kv => (alGet p kv.1).isSome) rest := by
        simp [List.filter_cons, hpk]
      rw [hkeep]
      by_cases hk : k = f
      · subst hk
        simp [alGet, hpk]
      · simp only [alGet, if_neg hk]
        exact ih
    · have hdrop : List.filter (fun kv => (alGet p kv.1).isSome) ((k, v) :: rest)
          = List.filter (fun kv => (alGet p kv.1).isSome) rest := by
        simp [List.filter_cons, hpk]
      rw [hdrop, ih]
      by_cases hk : k = f
      · subst hk
        rw [if_neg hpk, if_neg hpk]
      · have he : alGet ((k, v) :: rest) f = alGet rest f := by
          simp only [alGet]; rw [if_neg hk]
        rw [he]

/-- The copy loop (lines 292-297): a fold of in-place writes of the
patch's non-restricted fields. -/
theorem alGet_foldl_updates (p : Rec) (acc : Rec) (f : String)
    (hnd : (p.map Prod.fst).Nodup) :
    alGet (p.foldl
        (fun a kv => if kv.1 ∈ restrictedFields then a else alSet a kv.1 kv.2) acc) f
      = if f ∉ restrictedFields ∧ (alGet p f).isSome
        then alGet p f else alGet acc f := by
  induction p generalizing acc with
  | nil => simp [alGet]
  | cons kv rest ih =>
    rcases kv with ⟨k, v⟩
    have hnd' : (rest.map Prod.fst).Nodup := (List.nodup_cons.mp (by simpa using hnd)).2
    have hkn : k ∉ rest.map Prod.fst := (List.nodup_cons.mp (by simpa using hnd)).1
    have hrestnone : alGet rest k = none := alGet_eq_none_of_not_mem_keys hkn
    simp only [List.foldl_cons]
    by_cases hr : k ∈ restrictedFields
    · rw [if_pos hr, ih _ hnd']
      by_cases hkf : f = k
      · subst hkf
        have h1 : ¬ (f ∉ restrictedFields ∧ (alGet rest f).isSome = true) :=
          fun hx => hx.1 hr
        have h2 : ¬ (f ∉ restrictedFields ∧ (alGet ((f, v) :: rest) f).isSome = true) :=
          fun hx => hx.1 hr
        rw [if_neg h1, if_neg h2]
      · have he : alGet ((k, v) :: rest) f = alGet rest f := by
          simp only [alGet]; rw [if_neg (fun he' => hkf he'.symm)]
        rw [he]
    · rw [if_neg hr, ih _ hnd']
      by_cases hkf : f = k
      · subst hkf
        have h1 : ¬ (f ∉ restrictedFields ∧ (alGet rest f).isSome = true) := by
          rw [hrestnone]; exact fun hx => by simpa using hx.2
        have hcons : alGet ((f, v) :: rest) f = some v := by simp [alGet]
        rw [if_neg h1, alGet_alSet, if_pos rfl, hcons, if_pos ⟨hr, by rfl⟩]
      · have he : alGet ((k, v) :: rest) f = alGet rest f := by
          simp only [alGet]; rw [if_neg (fun he' => hkf he'.symm)]
        rw [alGet_alSet, if_neg hkf, he]

/-- Field-level description of the in-place record mutation performed by
a successful `updateRecord` on its matched record (lines 281-299):
`updated_ts` is stamped; a restricted field survives with its **old**
value exactly when the patch also has it (and is deleted otherwise —
including `created_ts` and `expired`); a non-restricted field ends with
the patch's value when present there and is deleted otherwise. -/
theorem updateOneRec_fields (r p : Rec) (now : String) (f : String)
    (hnd : (p.map Prod.fst).Nodup) :
    alGet (updateOneRec r p now) f =
      if f = "updated_ts" then some (.vStr now)
      else if f ∈ restrictedFields then
        (if (alGet p f).isSome then alGet r f else none)
      else
        (if (alGet p f).isSome then alGet p f else none) := by
  unfold updateOneRec
  rw [alGet_alSet]
  by_cases hts : f = "updated_ts"
  · rw [if_pos hts, if_pos hts]
  · rw [if_neg hts, if_neg hts, alGet_foldl_updates _ _ _ hnd]
    by_cases hr : f ∈ restrictedFields
    · rw [if_pos hr]
      have h1 : ¬ (f ∉ restrictedFields ∧ (alGet p f).isSome = true) :=
        fun hx => hx.1 hr
      rw [if_neg h1, alGet_filter_patch]
    · rw [if_neg hr]
      by_cases hp : (alGet p f).isSome
      · rw [if_pos (⟨hr, hp⟩ : _ ∧ _), if_pos hp]
      · have h1 : ¬ (f ∉ restrictedFields ∧ (alGet p f).isSome = true) :=
        fun hx => hp hx.2
        rw [if_neg h1, alGet_filter_patch, if_neg hp, if_neg hp]

theorem updateLoop_ok_true_inv (patch : Rec) (pk : Val) (now : String) (s : Store)
    (ids : List Nat) (s' : Store)
    (h : updateLoop patch pk now s ids = (.ok true, s')) :
    ∃ i, i ∈ ids ∧ alGet (s.heap.getD i []) "key" = some pk ∧
      s' = writeKeyFile { s with
        heap := s.heap.set i (updateOneRec (s.heap.getD i []) patch now),
        dirty := true } := by
  induction ids with
  | nil => simp [updateLoop, Prod.ext_iff] at h
  | cons i rest ih =>
    unfold updateLoop at h
    rcases hk : pyGet (s.heap.getD i []) "key" with e | rk <;> simp only [hk] at h
    · simp [Prod.ext_iff] at h
    · by_cases he : pk = rk
      · rw [if_pos he] at h
        have h2 := congrArg Prod.snd h
        refine ⟨i, by simp, ?_, h2.symm⟩
        rw [he]; exact pyGet_ok_iff.mp hk
      · rw [if_neg he] at h
        obtain ⟨i', hmem, hkey, hst⟩ := ih h
        exact ⟨i', by simp [hmem], hkey, hst⟩

theorem updateRecord_ok_true_inv (p : Rec) (now : String) (s s' : Store)
    (h : updateRecord p now s = (.ok true, s')) :
    ∃ vu vd vk i,
      alGet p "username" = some vu ∧ alGet p "domain" = some vd ∧
      alGet p "key" = some vk ∧
      alGet (s.heap.getD i []) "key" = some vk ∧
      s' = writeKeyFile { s with
        heap := s.heap.set i (updateOneRec (s.heap.getD i []) p now),
        dirty := true } := by
  unfold updateRecord at h
  by_cases h0 : p = []
  · rw [if_pos h0] at h; simp [Prod.ext_iff] at h
  rw [if_neg h0] at h
  rcases h1 : pyGet p "username" with e | vu <;> simp only [h1] at h
  · simp [Prod.ext_iff] at h
  rcases h2 : pyGet p "domain" with e | vd <;> simp only [h2] at h
  · simp [Prod.ext_iff] at h
  rcases h3 : regularizeDomainV vd with e | rd <;> simp only [h3] at h
  · simp [Prod.ext_iff] at h
  by_cases h4 : ¬ pyTruthy vu ∧ rd = ""
  · rw [if_pos h4] at h; simp [Prod.ext_iff] at h
  rw [if_neg h4] at h
  rcases h5 : pyGet p "key" with e | vk <;> simp only [h5] at h
  · simp [Prod.ext_iff] at h
  by_cases h6 : ¬ pyTruthy vk
  · rw [if_pos h6] at h; simp [Prod.ext_iff] at h
  rw [if_neg h6] at h
  rcases h7 : findRecordIds s vu (.vStr rd) false with e | found <;> simp only [h7] at h
  · simp [Prod.ext_iff] at h
  obtain ⟨i, _, hkey, hst⟩ := updateLoop_ok_true_inv p vk now s found s' h
  exact ⟨vu, vd, vk, i, pyGet_ok_iff.mp h1, pyGet_ok_iff.mp h2, pyGet_ok_iff.mp h5,
    hkey, hst⟩

/-- C1 amended: for the record a successful `updateRecord` selects (the
first candidate whose `key` equals the patch's), the operation never
changes `username`, `domain` or `key` (the patch necessarily contains
all three, and restricted fields are never copied from the patch); it
stamps `updated_ts`; it copies every non-restricted field present in the
patch; and it removes **every** field absent from the patch — with no
exemption for `created_ts` or `expired`, contrary to the claim's removal
rule — while every other stored record is untouched. -/
theorem c1_update_field_rules (s : Store) (p : Rec) (now : String) (s' : Store)
    (hnd : (p.map Prod.fst).Nodup)
    (h : updateRecord p now s = (.ok true, s')) :
    ∃ i,
      alGet (s'.heap.getD i []) "username" = alGet (s.heap.getD i []) "username" ∧
      alGet (s'.heap.getD i []) "domain" = alGet (s.heap.getD i []) "domain" ∧
      alGet (s'.heap.getD i []) "key" = alGet (s.heap.getD i []) "key" ∧
      alGet (s'.heap.getD i []) "updated_ts" = some (.vStr now) ∧
      (∀ f, f ∈ restrictedFields → f ≠ "updated_ts" → (alGet p f).isSome →
        alGet (s'.heap.getD i []) f = alGet (s.heap.getD i []) f) ∧
      (∀ f v, f ∉ restrictedFields → alGet p f = some v →
        alGet (s'.heap.getD i []) f = some v) ∧
      (∀ f, f ≠ "updated_ts" → alGet p f = none → alGet (s'.heap.getD i []) f = none) ∧
      (∀ j, j ≠ i → s'.heap.getD j [] = s.heap.getD j []) := by
  obtain ⟨vu, vd, vk, i, hu, hd, hk, hki, hst⟩ := updateRecord_ok_true_inv p now s s' h
  have hlen : i < s.heap.length := by
    by_contra hge
    rw [getD_out_of_range _ _ (le_of_not_lt hge)] at hki
    simp [alGet] at hki
  have hheap : s'.heap = s.heap.set i (updateOneRec (s.heap.getD i []) p now) := by
    rw [hst, writeKeyFile_heap]
  have hrec : s'.heap.getD i [] = updateOneRec (s.heap.getD i []) p now := by
    rw [hheap]; simp [List.getD, List.getElem?_set_self, hlen]
  refine ⟨i, ?_, ?_, ?_, ?_, ?_, ?_, ?_, ?_⟩
  · rw [hrec, updateOneRec_fields _ _ _ _ hnd, if_neg (by decide), if_pos (by decide),
      if_pos (by rw [hu]; rfl)]
  · rw [hrec, updateOneRec_fields _ _ _ _ hnd, if_neg (by decide), if_pos (by decide),
      if_pos (by rw [hd]; rfl)]
  · rw [hrec, updateOneRec_fields _ _ _ _ hnd, if_neg (by decide), if_pos (by decide),
      if_pos (by rw [hk]; rfl)]
  · rw [hrec, updateOneRec_fields _ _ _ _ hnd, if_pos rfl]
  · intro f hfr hfts hfp
    rw [hrec, updateOneRec_fields _ _ _ _ hnd, if_neg hfts, if_pos hfr, if_pos hfp]
  · intro f v hfr hfv
    have hfts : f ≠ "updated_ts" :=
      fun he => hfr (he ▸ (by decide : "updated_ts" ∈ restrictedFields))
    rw [hrec, updateOneRec_fields _ _ _ _ hnd, if_neg hfts, if_neg hfr,
      if_pos (by rw [hfv]; rfl), hfv]
  · intro f hfts hfn
    have hns : ¬ (alGet p f).isSome = true := by rw [hfn]; simp
    rw [hrec, updateOneRec_fields _ _ _ _ hnd, if_neg hfts]
    by_cases hfr : f ∈ restrictedFields
    · rw [if_pos hfr, if_neg hns]
    · rw [if_neg hfr, if_neg hns]
  · intro j hj
    rw [hheap]
    simp only [List.getD]
    rw [List.get?_set_ne _ _ (fun he => hj he.symm)]

/-- A one-record store whose record carries both timestamps, and a patch
that matches it but omits `created_ts` (and `expired`). -/
def storeC1 : Store :=
  { heap := [[("key", .vStr "k1"), ("domain", .vStr "d"), ("username", .vStr "u"),
              ("description", .vStr "old"), ("created_ts", .vStr "2024-05-01 10:00:00"),
              ("updated_ts", .vStr "2024-05-01 10:00:00"), ("expired", .vBool false)]],
    objHeap := [],
    byUser := [(.vStr "u", [(.vStr "d", [0])])],
    byDomain := [(.vStr "d", [(.vStr "u", [0])])],
    dirty := false,
    file := .missing,
    status := KM_STATUS_OPEN }

def patchC1 : Rec :=
  [("username", .vStr "u"), ("domain", .vStr "d"), ("key", .vStr "k1"),
   ("description", .vStr "newdesc")]

/-- C1 counterexample: updating with a patch that omits `created_ts`
**removes** the stored record's `created_ts` (and `expired`) — the
removal rule has no exemption for protected fields or timestamps, so the
claim's "never removes those protected fields or the timestamps" is
false on the code. -/
theorem c1_counterexample :
    (updateRecord patchC1 "t9" storeC1).1 = .ok true ∧
    alGet (storeC1.heap.getD 0 []) "created_ts" = some (.vStr "2024-05-01 10:00:00") ∧
    alGet ((updateRecord patchC1 "t9" storeC1).2.heap.getD 0 []) "created_ts" = none ∧
    alGet (storeC1.heap.getD 0 []) "expired" = some (.vBool false) ∧
    alGet ((updateRecord patchC1 "t9" storeC1).2.heap.getD 0 []) "expired" = none :=
  ⟨rfl, by decide, by decide, by decide, by decide⟩

theorem c1_witness :
    ((patchC1.map Prod.fst).Nodup ∧
      updateRecord patchC1 "t9" storeC1 = (.ok true, (updateRecord patchC1 "t9" storeC1).2)) ∧
    (∃ i,
      alGet ((updateRecord patchC1 "t9" storeC1).2.heap.getD i []) "username"
        = alGet (storeC1.heap.getD i []) "username" ∧
      alGet ((updateRecord patchC1 "t9" storeC1).2.heap.getD i []) "domain"
        = alGet (storeC1.heap.getD i []) "domain" ∧
      alGet ((updateRecord patchC1 "t9" storeC1).2.heap.getD i []) "key"
        = alGet (storeC1.heap.getD i []) "key" ∧
      alGet ((updateRecord patchC1 "t9" storeC1).2.heap.getD i []) "updated_ts"
        = some (.vStr "t9") ∧
      (∀ f, f ∈ restrictedFields → f ≠ "updated_ts" → (alGet patchC1 f).isSome →
        alGet ((updateRecord patchC1 "t9" storeC1).2.heap.getD i []) f
          = alGet (storeC1.heap.getD i []) f) ∧
      (∀ f v, f ∉ restrictedFields → alGet patchC1 f = some v →
        alGet ((updateRecord patchC1 "t9" storeC1).2.heap.getD i []) f = some v) ∧
      (∀ f, f ≠ "updated_ts" → alGet patchC1 f = none →
        alGet ((updateRecord patchC1 "t9" storeC1).2.heap.getD i []) f = none) ∧
      (∀ j, j ≠ i →
        (updateRecord patchC1 "t9" storeC1).2.heap.getD j [] = storeC1.heap.getD j [])) :=
  ⟨⟨by decide, rfl⟩,
    c1_update_field_rules storeC1 patchC1 "t9" (updateRecord patchC1 "t9" storeC1).2
      (by decide) rfl⟩

/-! ### Round trip: flush then load (C8) -/

theorem alSet_of_not_mem {κ α : Type} [DecidableEq κ] {l : List (κ × α)} {k : κ} (v : α)
    (h : alGet l k = none) : alSet l k v = l ++ [(k, v)] := by
  induction l with
  | nil => rfl
  | cons kv rest ih =>
    rcases kv with ⟨k', v'⟩
    simp only [alGet] at h
    by_cases hk : k' = k
    · rw [if_pos hk] at h; exact absurd h (by simp)
    · rw [if_neg hk] at h
      simp only [alSet, if_neg hk, List.cons_append]
      rw [ih h]

theorem alSet_append_self {κ α : Type} [DecidableEq κ] {l : List (κ × α)} {k : κ}
    (a v : α) (h : alGet l k = none) : alSet (l ++ [(k, a)]) k v = l ++ [(k, v)] := by
  induction l with
  | nil => simp [alSet]
  | cons kv rest ih =>
    rcases kv with ⟨k', v'⟩
    simp only [alGet] at h
    by_cases hk : k' = k
    · rw [if_pos hk] at h; exact absurd h (by simp)
    · rw [if_neg hk] at h
      simp only [List.cons_append, alSet, if_neg hk, List.append_eq]
      rw [ih h]

theorem flatten_alSet_present {inner : List (Val × List Nat)} {k2 : Val} {lst : List Nat}
    (i : Nat) (h : alGet inner k2 = some lst) :
    (((alSet inner k2 (lst ++ [i])).map Prod.snd).flatten).Perm
      (i :: (inner.map Prod.snd).flatten) := by
  induction inner with
  | nil => simp [alGet] at h
  | cons kv rest ih =>
    rcases kv with ⟨k', w⟩
    simp only [alGet] at h
    by_cases hk : k' = k2
    · rw [if_pos hk] at h
      have hw : w = lst := Option.some.inj h
      subst hw
      simp only [alSet, if_pos hk, List.map_cons, List.flatten_cons]
      rw [List.append_assoc]
      exact List.perm_middle
    · rw [if_neg hk] at h
      simp only [alSet, if_neg hk, List.map_cons, List.flatten_cons]
      exact ((ih h).append_left w).trans List.perm_middle

theorem flattenIds_alSet_present {idx : Idx} {k1 : Val} {inner : List (Val × List Nat)}
    {inner2 : List (Val × List Nat)} (i : Nat)
    (h : alGet idx k1 = some inner)
    (hp : ((inner2.map Prod.snd).flatten).Perm (i :: (inner.map Prod.snd).flatten)) :
    (flattenIds (alSet idx k1 inner2)).Perm (i :: flattenIds idx) := by
  induction idx with
  | nil => simp [alGet] at h
  | cons kv rest ih =>
    rcases kv with ⟨k', w⟩
    simp only [alGet] at h
    by_cases hk : k' = k1
    · rw [if_pos hk] at h
      have hw : w = inner := Option.some.inj h
      subst hw
      simp only [alSet, if_pos hk]
      unfold flattenIds
      simp only [List.map_cons, List.flatten_cons]
      exact hp.append_right _
    · rw [if_neg hk] at h
      simp only [alSet, if_neg hk]
      unfold flattenIds
      simp only [List.map_cons, List.flatten_cons]
      exact ((ih h).append_left _).trans List.perm_middle

theorem inner_insert_perm (inner : List (Val × List Nat)) (k2 : Val) (i : Nat) :
    (((alSet (alEnsure inner k2 []) k2
        ((alGet (alEnsure inner k2 []) k2).getD [] ++ [i])).map Prod.snd).flatten).Perm
      (i :: ((inner.map Prod.snd).flatten)) := by
  rcases h : alGet inner k2 with _ | lst
  · have hset : alSet inner k2 ([] : List Nat) = inner ++ [(k2, [])] :=
      alSet_of_not_mem _ h
    have he1 : alEnsure inner k2 ([] : List Nat) = inner ++ [(k2, [])] := by
      unfold alEnsure
      rw [h]
      simpa using hset
    have hg : alGet (inner ++ [(k2, ([] : List Nat))]) k2 = some [] := by
      rw [← hset, alGet_alSet, if_pos rfl]
    rw [he1, hg]
    simp only [Option.getD_some, List.nil_append]
    rw [alSet_append_self _ _ h]
    simp only [List.map_append, List.flatten_append]
    simpa using List.perm_append_singleton i ((inner.map Prod.snd).flatten)
  · have he1 : alEnsure inner k2 ([] : List Nat) = inner := by
      unfold alEnsure
      rw [h]
      simp
    rw [he1, h]
    simp only [Option.getD_some]
    exact flatten_alSet_present i h

/-- Flattening the by-domain index after one `indexInsert` yields the
same record addresses plus the inserted one (as a multiset). -/
theorem flattenIds_indexInsert (idx : Idx) (k1 k2 : Val) (i : Nat) :
    (flattenIds (indexInsert idx k1 k2 i)).Perm (i :: flattenIds idx) := by
  have hbody : indexInsert idx k1 k2 i =
      alSet (alEnsure idx k1 []) k1
        (alSet (alEnsure ((alGet (alEnsure idx k1 []) k1).getD []) k2 [])
          k2 ((alGet (alEnsure ((alGet (alEnsure idx k1 []) k1).getD []) k2 []) k2).getD []
              ++ [i])) := rfl
  rw [hbody]
  rcases h : alGet idx k1 with _ | inner
  · have hset : alSet idx k1 ([] : List (Val × List Nat)) = idx ++ [(k1, [])] :=
      alSet_of_not_mem _ h
    have he1 : alEnsure idx k1 ([] : List (Val × List Nat)) = idx ++ [(k1, [])] := by
      unfold alEnsure
      rw [h]
      simpa using hset
    have hg : alGet (idx ++ [(k1, ([] : List (Val × List Nat)))]) k1 = some [] := by
      rw [← hset, alGet_alSet, if_pos rfl]
    rw [he1, hg]
    simp only [Option.getD_some]
    have hinner : alSet (alEnsure ([] : List (Val × List Nat)) k2 []) k2
        ((alGet (alEnsure ([] : List (Val × List Nat)) k2 []) k2).getD [] ++ [i])
        = [(k2, [i])] := by
      simp [alEnsure, alGet, alSet]
    rw [hinner, alSet_append_self _ _ h]
    unfold flattenIds
    simp only [List.map_append, List.flatten_append]
    simpa using List.perm_append_singleton i (flattenIds idx)
  · have he1 : alEnsure idx k1 ([] : List (Val × List Nat)) = idx := by
      unfold alEnsure
      rw [h]
      simp
    rw [he1, h]
    simp only [Option.getD_some]
    exact flattenIds_alSet_present i h (inner_insert_perm inner k2 i)

/-- The store after one iteration of the rebuild loop on a record whose
domain is truthy. -/
def loadStepStore (r : Rec) (s : Store) (vu vd : Val) : Store :=
  { s with heap := s.heap ++ [r],
           byUser := if pyTruthy vu
             then indexInsert s.byUser vu vd s.heap.length else s.byUser,
           byDomain := indexInsert s.byDomain vd vu s.heap.length }

theorem loadLoop_cons_step (r : Rec) (rest : List Rec) (s : Store) (vu vd : Val)
    (e1 : pyGet r "username" = .ok vu) (e2 : pyGet r "domain" = .ok vd)
    (hvdt : pyTruthy vd = true) :
    loadLoop (r :: rest) s = loadLoop rest (loadStepStore r s vu vd) := by
  unfold loadStepStore
  conv_lhs => unfold loadLoop
  by_cases hvu : pyTruthy vu
  · simp only [e1, e2, hvdt, hvu, if_true]
  · simp only [e1, e2, hvdt, hvu, Bool.false_eq_true, if_false, if_true]

theorem loadLoop_ok_perm (L : List Rec) : ∀ (s : Store),
    (∀ r ∈ L, (∃ vu, alGet r "username" = some vu) ∧
        (∃ vd, alGet r "domain" = some vd ∧ pyTruthy vd = true)) →
    (∀ j ∈ flattenIds s.byDomain, j < s.heap.length) →
    ∃ s', loadLoop L s = (.ok (), s') ∧
      (flattenByDomain s'.heap s'.byDomain).Perm
        (flattenByDomain s.heap s.byDomain ++ L) := by
  induction L with
  | nil =>
    intro s _ _
    exact ⟨s, rfl, by simp⟩
  | cons r rest ih =>
    intro s hfields hb
    obtain ⟨⟨vu, hvu⟩, ⟨vd, hvd, hvdt⟩⟩ := hfields r (by simp)
    have hstep := loadLoop_cons_step r rest s vu vd
      (pyGet_ok_iff.mpr hvu) (pyGet_ok_iff.mpr hvd) hvdt
    have hheap3 : (loadStepStore r s vu vd).heap = s.heap ++ [r] := rfl
    have hbd3 : (loadStepStore r s vu vd).byDomain
        = indexInsert s.byDomain vd vu s.heap.length := rfl
    have hperm3 : (flattenByDomain (loadStepStore r s vu vd).heap
        (loadStepStore r s vu vd).byDomain).Perm
        (r :: flattenByDomain s.heap s.byDomain) := by
      rw [hheap3, hbd3]
      unfold flattenByDomain
      have hids := flattenIds_indexInsert s.byDomain vd vu s.heap.length
      refine (hids.map (fun j => (s.heap ++ [r]).getD j [])).trans ?_
      simp only [List.map_cons]
      have h1 : (s.heap ++ [r]).getD s.heap.length [] = r := by
        simp [List.getD, List.getElem?_append, Nat.lt_irrefl]
      have h2 : (flattenIds s.byDomain).map (fun j => (s.heap ++ [r]).getD j [])
          = (flattenIds s.byDomain).map (fun j => s.heap.getD j []) := by
        apply List.map_congr_left
        intro j hj
        simp [List.getD, List.getElem?_append, hb j hj]
      rw [h1, h2]
    have hb3 : ∀ j ∈ flattenIds (loadStepStore r s vu vd).byDomain,
        j < (loadStepStore r s vu vd).heap.length := by
      intro j hj
      rw [hbd3] at hj
      have hmem := (flattenIds_indexInsert s.byDomain vd vu s.heap.length).mem_iff.mp hj
      rw [hheap3, List.length_append]
      rcases List.mem_cons.mp hmem with h | h
      · simp [h]
      · have := hb j h
        simp only [List.length_cons, List.length_nil]
        omega
    obtain ⟨sq, hsq, hperm2⟩ := ih (loadStepStore r s vu vd)
      (fun q hq => hfields q (by simp [hq])) hb3
    refine ⟨sq, by rw [hstep]; exact hsq, ?_⟩
    refine hperm2.trans ?_
    refine (hperm3.append_right rest).trans ?_
    simpa using List.perm_middle.symm

theorem writeKeyFile_file (s : Store)
    (hsync : s.dirty = true ∨ s.file = .ok (flattenByDomain s.heap s.byDomain)) :
    (writeKeyFile s).file = .ok (flattenByDomain s.heap s.byDomain) := by
  unfold writeKeyFile
  rcases hsync with h | h
  · rw [if_pos h]
  · split
    · rfl
    · exact h

theorem kmInit_ok_perm (L : List Rec)
    (hfields : ∀ r ∈ L, (∃ vu, alGet r "username" = some vu) ∧
        (∃ vd, alGet r "domain" = some vd ∧ pyTruthy vd = true)) :
    (kmInit (.ok L)).status = KM_STATUS_OPEN ∧
    (flattenByDomain (kmInit (.ok L)).heap (kmInit (.ok L)).byDomain).Perm L := by
  obtain ⟨s', hs', hperm⟩ := loadLoop_ok_perm L
    { heap := [], objHeap := [], byUser := [], byDomain := [], dirty := false,
      file := .ok L, status := KM_STATUS_CLOSED }
    hfields (by intro j hj; simp [flattenIds] at hj)
  have hm : kmInit (.ok L) = { s' with status := KM_STATUS_OPEN } := by
    have hbody : kmInit (.ok L) =
        (match loadLoop L
            { heap := [], objHeap := [], byUser := [], byDomain := [], dirty := false,
              file := .ok L, status := KM_STATUS_CLOSED } with
         | (.ok _, s1) => { s1 with status := KM_STATUS_OPEN }
         | (.error e, s1) => { s1 with status := "Exception: " ++ errStr e }) := rfl
    rw [hbody, hs']
  rw [hm]
  refine ⟨rfl, ?_⟩
  simp only
  simpa using hperm

/-- C8 amended: for every store whose by-domain index addresses only
records of the heap, each with a `username` entry and a truthy `domain`
entry (every store built by the store's own operations is such), and
that is dirty or whose file is in sync, flushing and then loading the
file into a fresh store succeeds and yields a by-domain index with the
same flattened record multiset as the original store. -/
theorem c8_roundtrip_perm (s : Store)
    (hb : ∀ j ∈ flattenIds s.byDomain, j < s.heap.length)
    (hfields : ∀ r ∈ flattenByDomain s.heap s.byDomain,
        (∃ vu, alGet r "username" = some vu) ∧
        (∃ vd, alGet r "domain" = some vd ∧ pyTruthy vd = true))
    (hsync : s.dirty = true ∨ s.file = .ok (flattenByDomain s.heap s.byDomain)) :
    (kmInit (writeKeyFile s).file).status = KM_STATUS_OPEN ∧
    (flattenByDomain (kmInit (writeKeyFile s).file).heap
        (kmInit (writeKeyFile s).file).byDomain).Perm
      (flattenByDomain s.heap s.byDomain) := by
  rw [writeKeyFile_file s hsync]
  exact kmInit_ok_perm _ hfields

/-- The (reachable) store obtained by submitting a record whose raw
domain "/" regularizes to the empty string. -/
def storeSlash : Store :=
  (submitRecord [("key", .vStr "k"), ("domain", .vStr "/"), ("username", .vStr "u"),
    ("expired", .vBool false)] "t1" (kmInit (.ok []))).2

/-- C8 counterexample: `submitRecord` validates the raw domain before
regularizing it, so a record submitted with domain "/" is stored under
the empty-string domain key; the flush-then-load round trip **loses** it
(`__read_key_file__` skips falsy domains when rebuilding by-domain), so
the reloaded store's flattened by-domain record set is empty while the
original's is not — the claim fails for this store state. -/
theorem c8_counterexample :
    (submitRecord [("key", .vStr "k"), ("domain", .vStr "/"), ("username", .vStr "u"),
      ("expired", .vBool false)] "t1" (kmInit (.ok []))).1 = .ok () ∧
    flattenByDomain storeSlash.heap storeSlash.byDomain
      = [[("key", .vStr "k"), ("domain", .vStr ""), ("username", .vStr "u"),
          ("expired", .vBool false), ("updated_ts", .vStr "t1")]] ∧
    (kmInit (writeKeyFile storeSlash).file).status = KM_STATUS_OPEN ∧
    flattenByDomain (kmInit (writeKeyFile storeSlash).file).heap
      (kmInit (writeKeyFile storeSlash).file).byDomain = [] :=
  ⟨rfl, by decide, by decide, by decide⟩

/-- A dirty one-record store for exercising the round trip. -/
def storeC8 : Store := { storeC1 with dirty := true }

theorem c8_witness :
    storeC8.dirty = true ∧
    (kmInit (writeKeyFile storeC8).file).status = KM_STATUS_OPEN ∧
    (flattenByDomain (kmInit (writeKeyFile storeC8).file).heap
        (kmInit (writeKeyFile storeC8).file).byDomain).Perm
      (flattenByDomain storeC8.heap storeC8.byDomain) := by
  have hfields : ∀ r ∈ flattenByDomain storeC8.heap storeC8.byDomain,
      (∃ vu, alGet r "username" = some vu) ∧
      (∃ vd, alGet r "domain" = some vd ∧ pyTruthy vd = true) := by
    intro r hr
    rw [show flattenByDomain storeC8.heap storeC8.byDomain
        = [[("key", .vStr "k1"), ("domain", .vStr "d"), ("username", .vStr "u"),
            ("description", .vStr "old"), ("created_ts", .vStr "2024-05-01 10:00:00"),
            ("updated_ts", .vStr "2024-05-01 10:00:00"), ("expired", .vBool false)]]
      from rfl] at hr
    rw [List.mem_singleton.mp hr]
    exact ⟨⟨.vStr "u", by decide⟩, ⟨.vStr "d", by decide, by decide⟩⟩
  have h := c8_roundtrip_perm storeC8 (by decide) hfields (Or.inl rfl)
  exact ⟨rfl, h.1, h.2⟩

/-- A plainly valid key record used to exercise submit. -/
def recW : Rec :=
  [("key", .vStr "k1"), ("domain", .vStr "Example.COM"), ("username", .vStr "alice"),
   ("description", .vStr "a key"), ("created_ts", .vStr "2024-05-01 10:00:00"),
   ("expired", .vBool false)]

theorem c6_witness :
    Consistent (kmInit (.ok [])) ∧ (kmInit (.ok [])).dirty = false ∧
    (Consistent (submitRecord recW "t1" (kmInit (.ok []))).2 ∧
      (submitRecord recW "t1" (kmInit (.ok []))).2.dirty = false) ∧
    (Consistent (expireRecord patchAlice "t2" (kmInit (.ok []))).2 ∧
      (expireRecord patchAlice "t2" (kmInit (.ok []))).2.dirty = false) :=
  ⟨fun u d => rfl, rfl,
    (c6_index_consistency_dirty (kmInit (.ok [])) (fun u d => rfl) rfl).1 recW "t1",
    (c6_index_consistency_dirty (kmInit (.ok [])) (fun u d => rfl) rfl).2.2 patchAlice "t2"⟩
